import Mathlib

/-!
Verification of the poll-and-notify pipeline of the nodeseek-keywords bot.

The development shallowly embeds the relevant program parts:
* `matches` and the substring check embed `monitor.matches` (src/monitor.py);
  the Python `re` module is abstracted as a `RegexEngine` record (a validity
  predicate for `re.compile` and a search predicate for `re.search`).
* `BotState` carries the persistent stores of src/storage.py: the
  `seen_posts` ledger, the `notifications` audit table, the `initialized`
  setting, together with the in-memory `_rss_fail_count` of src/bot.py.
* `poll_rss` embeds the poll cycle of src/bot.py line by line.  Network
  effects are environment inputs: the fetch result is an
  `Option (List Post)` (`none` models a raised fetch exception), and
  Telegram send outcomes are an oracle `Nat → Bool` consumed one index per
  `bot.send_message` attempt.  A `CycleEffects` record logs the observable
  actions of one cycle (alert attempts, individual sends, summary, pruning).
* `get_history` embeds the SQL query of `storage.get_history` (grouping by
  post_id, `GROUP_CONCAT(DISTINCT keyword)`, `MIN(status)`, `MAX(sent_at)`,
  `ORDER BY sent_at DESC LIMIT ?`).
Timestamps are abstracted as natural numbers (the ISO strings of the code
compare chronologically, so `Nat` order is faithful).
-/

/-- A post entry parsed from the RSS feed (`monitor.fetch_entries`). -/
structure Post where
  post_id : Nat
  title : String
  link : String
  category : String
  author : String
deriving Repr, DecidableEq

/-- A keyword rule row of the `keywords` table (src/storage.py). -/
structure Keyword where
  keyword : String
  category : Option String
  match_mode : String
  enabled : Bool
deriving Repr, DecidableEq

/-- A row of the `notifications` audit table (`storage.log_notification`). -/
structure NotifRow where
  post_id : Nat
  keyword : String
  title : String
  link : String
  category : String
  author : String
  status : String
  sent_at : Nat
deriving Repr, DecidableEq

/-- A row of the `seen_posts` table. -/
structure SeenRow where
  post_id : Nat
  seen_at : Nat
deriving Repr, DecidableEq

/-- The persistent database state together with the in-memory
consecutive-failure counter `_rss_fail_count` of src/bot.py. -/
structure BotState where
  seen : List SeenRow
  log : List NotifRow
  initialized : Bool
  failCount : Nat
deriving Repr, DecidableEq

/-! ### Storage operations (src/storage.py) -/

/-- Embeds `storage.is_seen`: membership of a post id in the seen ledger. -/
def is_seen (st : BotState) (pid : Nat) : Bool :=
  st.seen.any (fun r => r.post_id == pid)

/-- Embeds `storage.mark_seen`: an `INSERT OR IGNORE` of one post id. -/
def mark_seen (st : BotState) (pid : Nat) (now : Nat) : BotState :=
  if is_seen st pid then st
  else { st with seen := st.seen ++ [⟨pid, now⟩] }

/-- Embeds `storage.mark_many_seen`: sequential `INSERT OR IGNORE` of a batch. -/
def mark_many_seen (st : BotState) (pids : List Nat) (now : Nat) : BotState :=
  pids.foldl (fun s pid => mark_seen s pid now) st

/-- Embeds `storage.cleanup_old_seen`: delete ledger rows with `seen_at < now - keep_days`. -/
def cleanup_old_seen (st : BotState) (keep_days : Nat) (now : Nat) : BotState :=
  { st with seen := st.seen.filter (fun r => decide (now - keep_days ≤ r.seen_at)) }

/-- Embeds `storage.log_notification`: append one audit row. -/
def log_notification (st : BotState) (pid : Nat)
    (kw title link category author status : String) (now : Nat) : BotState :=
  { st with log := st.log ++ [⟨pid, kw, title, link, category, author, status, now⟩] }

/-- Embeds `storage.cleanup_old_notifications`: delete audit rows with
`sent_at < now - keep_days`. -/
def cleanup_old_notifications (st : BotState) (keep_days : Nat) (now : Nat) : BotState :=
  { st with log := st.log.filter (fun r => decide (now - keep_days ≤ r.sent_at)) }

/-! ### Matching engine (src/monitor.py) -/

/-- Holds when `pat` begins the char list `s`. -/
def beginsWith : List Char → List Char → Bool
  | [], _ => true
  | _ :: _, [] => false
  | a :: as, b :: bs => a == b && beginsWith as bs

/-- Holds when `pat` occurs as a contiguous run inside `s` (Python `pat in s`). -/
def containsSub (pat : List Char) : List Char → Bool
  | [] => pat.isEmpty
  | c :: rest => beginsWith pat (c :: rest) || containsSub pat rest

/-- The characters of `s` lowercased (`str.lower()`; `String.toLower` maps
`Char.toLower` over the characters, done here directly on the char list). -/
def lowerChars (s : String) : List Char :=
  s.toList.map Char.toLower

/-- Case-insensitive substring containment: `keyword.lower() in title.lower()`. -/
def substrMatch (title keyword : String) : Bool :=
  containsSub (lowerChars keyword) (lowerChars title)

/-- Abstraction of the Python `re` module: `valid pat` holds when
`re.compile(pat)` succeeds, and `search pat s` is the truth value of
`re.search(pat, s, re.IGNORECASE)` for a valid pattern.  `re.search` on an
invalid pattern raises `re.error`, which `matches` catches. -/
structure RegexEngine where
  valid : String → Bool
  search : String → String → Bool

/-- Embeds `monitor.matches`: dispatch on `match_mode`; the `regex` arm returns the
search result for a valid pattern and `False` when compilation raises; every
other mode falls through to the case-insensitive substring check. -/
def matchesTitle (re : RegexEngine) (title keyword match_mode : String) : Bool :=
  if match_mode = "regex" then
    if re.valid keyword then re.search keyword title else false
  else substrMatch title keyword

/-! ### Entry merging (the `entries` dict of `poll_rss`) -/

/-- One `entries[e["post_id"]] = e` assignment: a later write for an existing
key overwrites the value in place, a new key is appended. -/
def insertEntry (l : List (Nat × Post)) (e : Post) : List (Nat × Post) :=
  if l.any (fun p => p.1 == e.post_id) then
    l.map (fun p => if p.1 == e.post_id then (p.1, e) else p)
  else l ++ [(e.post_id, e)]

/-- The merged `entries` mapping built from the fetched posts in order. -/
def buildEntries (fetched : List Post) : List (Nat × Post) :=
  fetched.foldl insertEntry []

/-- Insert into a list sorted by ascending key. -/
def insertAsc (x : Nat × Post) : List (Nat × Post) → List (Nat × Post)
  | [] => [x]
  | a :: l => if x.1 ≤ a.1 then x :: a :: l else a :: insertAsc x l

/-- Embeds `sorted(entries.items())`: ascending `post_id` order. -/
def sortEntriesAsc (l : List (Nat × Post)) : List (Nat × Post) :=
  l.foldr insertAsc []

/-! ### Delivery with retry (`bot._send_with_retry`) -/

/-- Embeds `_send_with_retry`: up to `fuel` attempts; attempt `i` succeeds when the
oracle `σ` is true at `i`.  Returns the success flag and the next unused
oracle index. -/
def _send_with_retry (σ : Nat → Bool) : Nat → Nat → Bool × Nat
  | i, 0 => (false, i)
  | i, n + 1 => if σ i then (true, i + 1) else _send_with_retry σ (i + 1) n

/-! ### The poll cycle (`bot.poll_rss`) -/

/-- The keyword texts matching a post: rules whose category scope admits the
post's category and whose pattern matches the title. -/
def matchedKeywords (re : RegexEngine) (keywords : List Keyword) (post : Post) :
    List String :=
  (keywords.filter (fun kw =>
    (match kw.category with
     | none => true
     | some c => c == post.category) &&
    matchesTitle re post.title kw.keyword kw.match_mode)).map (fun kw => kw.keyword)

/-- The active-branch loop over `sorted(entries.items())`: skip seen posts,
mark new ones seen, and queue those with a non-empty match list. -/
def processEntries (re : RegexEngine) (keywords : List Keyword) (now : Nat) :
    BotState → List (Nat × Post) → BotState × List (Post × List String)
  | st, [] => (st, [])
  | st, kp :: rest =>
    if is_seen st kp.1 then processEntries re keywords now st rest
    else
      let st1 := mark_seen st kp.1 now
      let matched := matchedKeywords re keywords kp.2
      let r := processEntries re keywords now st1 rest
      if matched.isEmpty then r else (r.1, (kp.2, matched) :: r.2)

/-- The individual-delivery loop: one `_send_with_retry` per queue entry and
one audit row per matched keyword, status decided by the delivery result. -/
def deliverLoop (σ : Nat → Bool) (now : Nat) :
    BotState → Nat → List (Post × List String) →
    BotState × Nat × List (Post × List String × Bool)
  | st, i, [] => (st, i, [])
  | st, i, e :: rest =>
    let s := _send_with_retry σ i 3
    let status := if s.1 then "sent" else "failed"
    let st1 := e.2.foldl (fun acc kw =>
      log_notification acc e.1.post_id kw e.1.title e.1.link e.1.category
        e.1.author status now) st
    let r := deliverLoop σ now st1 s.2 rest
    (r.1, r.2.1, (e.1, e.2, s.1) :: r.2.2)

/-- Audit rows written by the overflow-summary loop: one row per matched
keyword per summarized post, always with status `sent`. -/
def logOverflow (now : Nat) (st : BotState) (overflow : List (Post × List String)) :
    BotState :=
  overflow.foldl (fun acc e =>
    e.2.foldl (fun acc2 kw =>
      log_notification acc2 e.1.post_id kw e.1.title e.1.link e.1.category
        e.1.author "sent" now) acc) st

/-- Configuration relevant to the cycle: `MAX_NOTIFICATIONS_PER_POLL`,
`RSS_FAIL_ALERT_THRESHOLD`, and the ambient regex engine. -/
structure BotConfig where
  cap : Nat
  threshold : Nat
  regexEngine : RegexEngine

/-- Per-cycle environment: the keyword table snapshot, the merged fetch
result (`none` models a fetch exception), the send-outcome oracle and the
cycle's wall-clock time. -/
structure PollInput where
  keywords : List Keyword
  fetchResult : Option (List Post)
  sendOk : Nat → Bool
  now : Nat

/-- Observable actions of one cycle. -/
structure CycleEffects where
  healthAlertAttempted : Bool
  individualSends : List (Post × List String × Bool)
  summaryPosts : List (Post × List String)
  summaryAttempted : Bool
  pruned : Bool
deriving Repr, DecidableEq

/-- The effects of a cycle that performed no observable action. -/
def noEffects : CycleEffects := ⟨false, [], [], false, false⟩

/-- The enabled-rule snapshot taken at the start of a cycle. -/
def enabledKeywords (inp : PollInput) : List Keyword :=
  inp.keywords.filter (fun kw => kw.enabled)

/-- Steps 8-9 of the cycle (src/bot.py lines 450-508): split the queue at the
cap, deliver the head individually through the retry path, collapse any
remainder into one summary (its audit rows logged `sent`, the single summary
send's outcome swallowed), then prune both stores (7- and 30-day retention). -/
def floodControl (cfg : BotConfig) (σ : Nat → Bool) (now : Nat) (st : BotState)
    (queue : List (Post × List String)) : BotState × CycleEffects :=
  let to_send := queue.take cfg.cap
  let overflow := queue.drop cfg.cap
  let d := deliverLoop σ now st 0 to_send
  let st4 := if overflow.isEmpty then d.1 else logOverflow now d.1 overflow
  let st5 := cleanup_old_seen st4 7 now
  let st6 := cleanup_old_notifications st5 30 now
  (st6,
   { healthAlertAttempted := false,
     individualSends := d.2.2,
     summaryPosts := overflow,
     summaryAttempted := !overflow.isEmpty,
     pruned := true })

/-- One invocation of `bot.poll_rss`, with the state threaded explicitly. -/
def poll_rss (cfg : BotConfig) (inp : PollInput) (st : BotState) :
    BotState × CycleEffects :=
  let keywords := enabledKeywords inp
  if keywords.isEmpty then (st, noEffects)
  else
    match inp.fetchResult with
    | none =>
      let fc := st.failCount + 1
      ({ st with failCount := fc },
       { noEffects with healthAlertAttempted := fc == cfg.threshold })
    | some fetched =>
      let st1 := { st with failCount := 0 }
      let entries := buildEntries fetched
      if entries.isEmpty then (st1, noEffects)
      else if st1.initialized then
        let pe := processEntries cfg.regexEngine keywords inp.now st1
          (sortEntriesAsc entries)
        if pe.2.isEmpty then (pe.1, noEffects)
        else floodControl cfg inp.sendOk inp.now pe.1 pe.2
      else
        let st2 := mark_many_seen st1 (entries.map (fun kp => kp.1)) inp.now
        ({ st2 with initialized := true }, noEffects)

/-- The notification queue an active cycle builds (projection of the
active-branch loop), used to state flood-control properties. -/
def activeQueue (cfg : BotConfig) (inp : PollInput) (st : BotState) :
    List (Post × List String) :=
  match inp.fetchResult with
  | none => []
  | some fetched =>
    (processEntries cfg.regexEngine (enabledKeywords inp) inp.now
      { st with failCount := 0 } (sortEntriesAsc (buildEntries fetched))).2

/-- A sequence of cycles, collecting each cycle's effects. -/
def runCycles (cfg : BotConfig) : BotState → List PollInput → BotState × List CycleEffects
  | st, [] => (st, [])
  | st, inp :: rest =>
    let r := poll_rss cfg inp st
    let r2 := runCycles cfg r.1 rest
    (r2.1, r.2 :: r2.2)

/-- The audit row written for one (post, keyword) delivery attempt. -/
def rowOf (p : Post) (kw status : String) (now : Nat) : NotifRow :=
  ⟨p.post_id, kw, p.title, p.link, p.category, p.author, status, now⟩

/-- The audit rows the individual-delivery loop appends for a list of
annotated sends: one row per matched keyword, status from the send result. -/
def auditRows (now : Nat) (sends : List (Post × List String × Bool)) : List NotifRow :=
  sends.flatMap (fun t =>
    t.2.1.map (fun kw => rowOf t.1 kw (if t.2.2 then "sent" else "failed") now))

/-- The audit rows the overflow-summary loop appends: one row per matched
keyword per summarized post, all with status `sent`. -/
def overflowRows (now : Nat) (overflow : List (Post × List String)) : List NotifRow :=
  overflow.flatMap (fun e => e.2.map (fun kw => rowOf e.1 kw "sent" now))

/-! ### The history query (`storage.get_history`) -/

/-- Deduplicate keeping the first occurrence (scan order of the table). -/
def firstDedup {α : Type} [BEq α] (l : List α) : List α :=
  l.foldl (fun acc a => if acc.contains a then acc else acc ++ [a]) []

/-- Byte-wise (code-point) lexicographic order, SQLite's BINARY collation. -/
def charListLt : List Char → List Char → Bool
  | [], [] => false
  | [], _ :: _ => true
  | _ :: _, [] => false
  | a :: as, b :: bs => if a < b then true else if b < a then false else charListLt as bs

/-- Computes `MIN(status)` over a group, under SQLite's BINARY text collation. -/
def sqlMinStatus : List String → String
  | [] => ""
  | s :: rest => rest.foldl (fun acc t => if charListLt t.toList acc.toList then t else acc) s

/-- Computes `MAX(sent_at)` over a group. -/
def sqlMaxSentAt : List Nat → Nat
  | [] => 0
  | t :: rest => rest.foldl Nat.max t

/-- One row of the `get_history` result set. -/
structure HistoryRow where
  post_id : Nat
  keywords : String
  title : String
  link : String
  category : String
  author : String
  status : String
  sent_at : Nat
deriving Repr, DecidableEq

/-- The rows of one `GROUP BY post_id` group, in table order. -/
def groupRows (rows : List NotifRow) (pid : Nat) : List NotifRow :=
  rows.filter (fun r => r.post_id == pid)

/-- The aggregate row of one group: `GROUP_CONCAT(DISTINCT keyword)`,
`MIN(status)`, `MAX(sent_at)`; bare columns are taken from a group row. -/
def aggregateGroup (pid : Nat) (group : List NotifRow) : HistoryRow :=
  { post_id := pid
    keywords := String.intercalate "," (firstDedup (group.map (fun r => r.keyword)))
    title := (group.headD ⟨pid, "", "", "", "", "", "", 0⟩).title
    link := (group.headD ⟨pid, "", "", "", "", "", "", 0⟩).link
    category := (group.headD ⟨pid, "", "", "", "", "", "", 0⟩).category
    author := (group.headD ⟨pid, "", "", "", "", "", "", 0⟩).author
    status := sqlMinStatus (group.map (fun r => r.status))
    sent_at := sqlMaxSentAt (group.map (fun r => r.sent_at)) }

/-- Insert into a list sorted by descending `sent_at`. -/
def insertByTime (h : HistoryRow) : List HistoryRow → List HistoryRow
  | [] => [h]
  | a :: l => if a.sent_at ≤ h.sent_at then h :: a :: l else a :: insertByTime h l

/-- Implements `ORDER BY sent_at DESC` (on the aggregated `MAX(sent_at)` alias). -/
def sortByTimeDesc (l : List HistoryRow) : List HistoryRow :=
  l.foldr insertByTime []

/-- Embeds `storage.get_history`: group the audit table by `post_id`, aggregate each
group, order newest-first by latest attempt time, and keep `limit` rows. -/
def get_history (limit : Nat) (rows : List NotifRow) : List HistoryRow :=
  (sortByTimeDesc ((firstDedup (rows.map (fun r => r.post_id))).map
    (fun pid => aggregateGroup pid (groupRows rows pid)))).take limit

/-! ### Concrete instances used to evaluate the development -/

/-- An engine on which every pattern fails to compile (as an unbalanced
parenthesis does). -/
def rejectAllEngine : RegexEngine := ⟨fun _ => false, fun _ _ => true⟩

/-- An engine on which every pattern compiles and no search matches. -/
def acceptAllEngine : RegexEngine := ⟨fun _ => true, fun _ _ => false⟩

/-- A substring rule matching every post title containing `dmit`. -/
def kwDMIT : Keyword := ⟨"DMIT", none, "substring", true⟩

/-- A sample post whose title contains the keyword. -/
def samplePost (pid : Nat) : Post :=
  ⟨pid, "DMIT sale", "https://x/" ++ toString pid, "trade", "alice"⟩

/-- A sample configuration: cap 2, alert threshold 3. -/
def sampleCfg : BotConfig := ⟨2, 3, acceptAllEngine⟩

/-- A sample active-cycle input delivering five matching posts. -/
def sampleInput : PollInput :=
  ⟨[kwDMIT],
   some [samplePost 1, samplePost 2, samplePost 3, samplePost 4, samplePost 5],
   fun _ => true, 100⟩

/-- An initialized empty state. -/
def sampleState : BotState := ⟨[], [], true, 0⟩

/-- A cycle input whose fetch raises. -/
def failInput : PollInput := ⟨[kwDMIT], none, fun _ => true, 100⟩

/-- A cycle input whose fetch succeeds with an empty feed. -/
def okInput : PollInput := ⟨[kwDMIT], some [], fun _ => true, 100⟩

/-- A state two failures into an outage, with one old seen row and one old
audit row. -/
def failState : BotState := ⟨[⟨9, 1⟩], [rowOf (samplePost 9) "DMIT" "sent" 1], true, 2⟩

/-- A small audit table: post 1 has one sent and one failed attempt, post 2
only a sent one. -/
def sampleRows : List NotifRow :=
  [rowOf (samplePost 1) "DMIT" "sent" 10,
   rowOf (samplePost 1) "VPS" "failed" 11,
   rowOf (samplePost 2) "DMIT" "sent" 12]

/-! ### Theorems -/

/-- Appending keyword rows one by one appends the corresponding audit rows. -/
theorem foldl_log_rows (st : BotState) (p : Post) (status : String) (now : Nat)
    (kws : List String) :
    kws.foldl (fun acc kw =>
      log_notification acc p.post_id kw p.title p.link p.category p.author status now) st =
    { st with log := st.log ++ kws.map (fun kw => rowOf p kw status now) } := by
  induction kws generalizing st with
  | nil => simp
  | cons k rest ih =>
    simp only [List.foldl_cons, List.map_cons]
    rw [ih]
    simp [log_notification, rowOf]

@[simp] theorem mark_seen_log (st : BotState) (pid now : Nat) :
    (mark_seen st pid now).log = st.log := by
  unfold mark_seen; split <;> rfl

@[simp] theorem mark_seen_initialized (st : BotState) (pid now : Nat) :
    (mark_seen st pid now).initialized = st.initialized := by
  unfold mark_seen; split <;> rfl

@[simp] theorem mark_seen_failCount (st : BotState) (pid now : Nat) :
    (mark_seen st pid now).failCount = st.failCount := by
  unfold mark_seen; split <;> rfl

@[simp] theorem mark_many_seen_log (pids : List Nat) (now : Nat) : ∀ st : BotState,
    (mark_many_seen st pids now).log = st.log := by
  induction pids with
  | nil => intro st; rfl
  | cons p rest ih => intro st; simpa [mark_many_seen] using ih (mark_seen st p now)

@[simp] theorem mark_many_seen_initialized (pids : List Nat) (now : Nat) :
    ∀ st : BotState, (mark_many_seen st pids now).initialized = st.initialized := by
  induction pids with
  | nil => intro st; rfl
  | cons p rest ih => intro st; simpa [mark_many_seen] using ih (mark_seen st p now)

@[simp] theorem mark_many_seen_failCount (pids : List Nat) (now : Nat) :
    ∀ st : BotState, (mark_many_seen st pids now).failCount = st.failCount := by
  induction pids with
  | nil => intro st; rfl
  | cons p rest ih => intro st; simpa [mark_many_seen] using ih (mark_seen st p now)

@[simp] theorem processEntries_log (re : RegexEngine) (kws : List Keyword) (now : Nat)
    (l : List (Nat × Post)) : ∀ st : BotState,
    (processEntries re kws now st l).1.log = st.log := by
  induction l with
  | nil => intro st; rfl
  | cons kp rest ih =>
    intro st
    simp only [processEntries]
    split
    · exact ih st
    · split <;> simp [ih]

@[simp] theorem processEntries_initialized (re : RegexEngine) (kws : List Keyword)
    (now : Nat) (l : List (Nat × Post)) : ∀ st : BotState,
    (processEntries re kws now st l).1.initialized = st.initialized := by
  induction l with
  | nil => intro st; rfl
  | cons kp rest ih =>
    intro st
    simp only [processEntries]
    split
    · exact ih st
    · split <;> simp [ih]

@[simp] theorem processEntries_failCount (re : RegexEngine) (kws : List Keyword)
    (now : Nat) (l : List (Nat × Post)) : ∀ st : BotState,
    (processEntries re kws now st l).1.failCount = st.failCount := by
  induction l with
  | nil => intro st; rfl
  | cons kp rest ih =>
    intro st
    simp only [processEntries]
    split
    · exact ih st
    · split <;> simp [ih]

/-- Closed form of the three-attempt retry loop. -/
theorem send_with_retry_closed (σ : Nat → Bool) (i : Nat) :
    _send_with_retry σ i 3 =
      (if σ i then (true, i + 1)
       else if σ (i + 1) then (true, i + 2)
       else if σ (i + 2) then (true, i + 3)
       else (false, i + 3)) := by
  by_cases h1 : σ i <;> by_cases h2 : σ (i + 1) <;> by_cases h3 : σ (i + 2) <;>
    simp [_send_with_retry, h1, h2, h3]

/-- The annotated sends of the delivery loop project back to the queue. -/
theorem deliverLoop_sends_proj (σ : Nat → Bool) (now : Nat)
    (l : List (Post × List String)) : ∀ (st : BotState) (i : Nat),
    (deliverLoop σ now st i l).2.2.map (fun t => (t.1, t.2.1)) = l := by
  induction l with
  | nil => intro st i; rfl
  | cons e rest ih => intro st i; simp [deliverLoop, ih]

/-- The delivery loop appends exactly the audit rows of its sends. -/
theorem deliverLoop_log_eq (σ : Nat → Bool) (now : Nat)
    (l : List (Post × List String)) : ∀ (st : BotState) (i : Nat),
    (deliverLoop σ now st i l).1.log =
      st.log ++ auditRows now (deliverLoop σ now st i l).2.2 := by
  induction l with
  | nil => intro st i; simp [deliverLoop, auditRows]
  | cons e rest ih =>
    intro st i
    simp only [deliverLoop, foldl_log_rows]
    rw [ih]
    simp [auditRows, rowOf]

@[simp] theorem deliverLoop_seen (σ : Nat → Bool) (now : Nat)
    (l : List (Post × List String)) : ∀ (st : BotState) (i : Nat),
    (deliverLoop σ now st i l).1.seen = st.seen := by
  induction l with
  | nil => intro st i; rfl
  | cons e rest ih => intro st i; simp [deliverLoop, foldl_log_rows, ih]

@[simp] theorem deliverLoop_initialized (σ : Nat → Bool) (now : Nat)
    (l : List (Post × List String)) : ∀ (st : BotState) (i : Nat),
    (deliverLoop σ now st i l).1.initialized = st.initialized := by
  induction l with
  | nil => intro st i; rfl
  | cons e rest ih => intro st i; simp [deliverLoop, foldl_log_rows, ih]

@[simp] theorem deliverLoop_failCount (σ : Nat → Bool) (now : Nat)
    (l : List (Post × List String)) : ∀ (st : BotState) (i : Nat),
    (deliverLoop σ now st i l).1.failCount = st.failCount := by
  induction l with
  | nil => intro st i; rfl
  | cons e rest ih => intro st i; simp [deliverLoop, foldl_log_rows, ih]

/-- The overflow-summary loop appends exactly its `sent` audit rows. -/
theorem logOverflow_eq (now : Nat) (overflow : List (Post × List String)) :
    ∀ st : BotState, logOverflow now st overflow =
      { st with log := st.log ++ overflowRows now overflow } := by
  induction overflow with
  | nil => intro st; simp [logOverflow, overflowRows]
  | cons e rest ih =>
    intro st
    simp only [logOverflow] at ih ⊢
    rw [List.foldl_cons, foldl_log_rows, ih]
    simp [overflowRows, rowOf]

@[simp] theorem logOverflow_seen (now : Nat) (overflow : List (Post × List String))
    (st : BotState) : (logOverflow now st overflow).seen = st.seen := by
  rw [logOverflow_eq]

@[simp] theorem logOverflow_initialized (now : Nat) (overflow : List (Post × List String))
    (st : BotState) : (logOverflow now st overflow).initialized = st.initialized := by
  rw [logOverflow_eq]

@[simp] theorem logOverflow_failCount (now : Nat) (overflow : List (Post × List String))
    (st : BotState) : (logOverflow now st overflow).failCount = st.failCount := by
  rw [logOverflow_eq]

@[simp] theorem enabledKeywords_sendOk (inp : PollInput) (σ : Nat → Bool) :
    enabledKeywords { inp with sendOk := σ } = enabledKeywords inp := rfl

@[simp] theorem cleanup_old_seen_log (st : BotState) (k now : Nat) :
    (cleanup_old_seen st k now).log = st.log := rfl

@[simp] theorem cleanup_old_seen_initialized (st : BotState) (k now : Nat) :
    (cleanup_old_seen st k now).initialized = st.initialized := rfl

@[simp] theorem cleanup_old_seen_failCount (st : BotState) (k now : Nat) :
    (cleanup_old_seen st k now).failCount = st.failCount := rfl

@[simp] theorem cleanup_old_notifications_seen (st : BotState) (k now : Nat) :
    (cleanup_old_notifications st k now).seen = st.seen := rfl

@[simp] theorem cleanup_old_notifications_initialized (st : BotState) (k now : Nat) :
    (cleanup_old_notifications st k now).initialized = st.initialized := rfl

@[simp] theorem cleanup_old_notifications_failCount (st : BotState) (k now : Nat) :
    (cleanup_old_notifications st k now).failCount = st.failCount := rfl

@[simp] theorem floodControl_failCount (cfg : BotConfig) (σ : Nat → Bool) (now : Nat)
    (st : BotState) (queue : List (Post × List String)) :
    (floodControl cfg σ now st queue).1.failCount = st.failCount := by
  simp only [floodControl]
  split <;> simp

@[simp] theorem floodControl_initialized (cfg : BotConfig) (σ : Nat → Bool) (now : Nat)
    (st : BotState) (queue : List (Post × List String)) :
    (floodControl cfg σ now st queue).1.initialized = st.initialized := by
  simp only [floodControl]
  split <;> simp

@[simp] theorem floodControl_alert (cfg : BotConfig) (σ : Nat → Bool) (now : Nat)
    (st : BotState) (queue : List (Post × List String)) :
    (floodControl cfg σ now st queue).2.healthAlertAttempted = false := rfl

@[simp] theorem floodControl_pruned (cfg : BotConfig) (σ : Nat → Bool) (now : Nat)
    (st : BotState) (queue : List (Post × List String)) :
    (floodControl cfg σ now st queue).2.pruned = true := rfl

@[simp] theorem floodControl_sends (cfg : BotConfig) (σ : Nat → Bool) (now : Nat)
    (st : BotState) (queue : List (Post × List String)) :
    (floodControl cfg σ now st queue).2.individualSends =
      (deliverLoop σ now st 0 (queue.take cfg.cap)).2.2 := rfl

@[simp] theorem floodControl_summaryPosts (cfg : BotConfig) (σ : Nat → Bool) (now : Nat)
    (st : BotState) (queue : List (Post × List String)) :
    (floodControl cfg σ now st queue).2.summaryPosts = queue.drop cfg.cap := rfl

@[simp] theorem floodControl_summaryAttempted (cfg : BotConfig) (σ : Nat → Bool)
    (now : Nat) (st : BotState) (queue : List (Post × List String)) :
    (floodControl cfg σ now st queue).2.summaryAttempted =
      !(queue.drop cfg.cap).isEmpty := rfl

theorem floodControl_log (cfg : BotConfig) (σ : Nat → Bool) (now : Nat)
    (st : BotState) (queue : List (Post × List String)) :
    (floodControl cfg σ now st queue).1.log =
      (st.log ++ auditRows now (floodControl cfg σ now st queue).2.individualSends
        ++ overflowRows now (queue.drop cfg.cap)).filter
        (fun r => decide (now - 30 ≤ r.sent_at)) := by
  simp only [floodControl]
  by_cases hov : (queue.drop cfg.cap).isEmpty = true
  · have : queue.drop cfg.cap = [] := by simpa [List.isEmpty_iff] using hov
    simp [hov, cleanup_old_notifications, deliverLoop_log_eq, this, overflowRows]
  · simp only [hov, Bool.false_eq_true, if_false]
    simp [cleanup_old_notifications, logOverflow_eq, deliverLoop_log_eq,
      List.append_assoc]

theorem floodControl_seen (cfg : BotConfig) (σ : Nat → Bool) (now : Nat)
    (st : BotState) (queue : List (Post × List String)) :
    (floodControl cfg σ now st queue).1.seen =
      st.seen.filter (fun r => decide (now - 7 ≤ r.seen_at)) := by
  simp only [floodControl]
  split <;> simp [cleanup_old_seen]

/-- C7: for every title and keyword, `matches` in regex mode is a total
boolean function, and when the keyword is an invalid pattern (one the regex
engine refuses to compile) the result is `false`. -/
theorem matches_invalid_regex_safe (re : RegexEngine) (title keyword : String)
    (h : re.valid keyword = false) :
    matchesTitle re title keyword "regex" = false := by
  simp [matchesTitle, h]

/-- Witness for C7 at a concrete unbalanced-parenthesis pattern, on an engine
that rejects it. -/
theorem matches_invalid_regex_safe_witness :
    rejectAllEngine.valid "(" = false ∧
    matchesTitle rejectAllEngine "DMIT sale" "(" "regex" = false :=
  ⟨rfl, matches_invalid_regex_safe rejectAllEngine "DMIT sale" "(" rfl⟩

/-- C10: every match mode other than `regex` — not only `substring` — takes
the case-insensitive substring branch, so no mode value selects a third
behavior. -/
theorem matches_default_mode_substring (re : RegexEngine) (title keyword mode : String)
    (h : mode ≠ "regex") :
    matchesTitle re title keyword mode = substrMatch title keyword := by
  simp [matchesTitle, h]

/-- Witness for C10 at an unrecognized mode string. -/
theorem matches_default_mode_substring_witness :
    ("weird" : String) ≠ "regex" ∧
    matchesTitle rejectAllEngine "Hello DMIT Deal" "dmit" "weird" =
      substrMatch "Hello DMIT Deal" "dmit" ∧
    substrMatch "Hello DMIT Deal" "dmit" = true :=
  ⟨by decide,
   matches_default_mode_substring rejectAllEngine "Hello DMIT Deal" "dmit" "weird"
     (by decide),
   by decide⟩

/-- C6: `_send_with_retry` makes at most 3 attempts, returning `true` at the
first success and `false` with the oracle advanced by 3 when all attempts are
exhausted; and the individual-delivery loop writes, for every queue entry,
exactly one audit row per matched keyword, status `sent` when the delivery
succeeded and `failed` otherwise. -/
theorem delivery_retry_audit :
    (∀ (σ : Nat → Bool) (i : Nat),
      _send_with_retry σ i 3 =
        (if σ i then (true, i + 1)
         else if σ (i + 1) then (true, i + 2)
         else if σ (i + 2) then (true, i + 3)
         else (false, i + 3))) ∧
    (∀ (σ : Nat → Bool) (now : Nat) (st : BotState) (i : Nat)
       (l : List (Post × List String)),
      (deliverLoop σ now st i l).2.2.map (fun t => (t.1, t.2.1)) = l ∧
      (deliverLoop σ now st i l).1.log =
        st.log ++ auditRows now (deliverLoop σ now st i l).2.2) := by
  exact ⟨send_with_retry_closed,
    fun σ now st i l =>
      ⟨deliverLoop_sends_proj σ now l st i, deliverLoop_log_eq σ now l st i⟩⟩

/-- C1: a cycle whose fetch fails increments the consecutive-failure counter,
attempts the health alert exactly when the incremented counter equals the
threshold, leaves the seen ledger, the audit log and the initialized flag
untouched, performs no delivery and no pruning, and its outcome is
independent of the send oracle (the alert send's own failure is swallowed). -/
theorem fetch_failure_cycle_spec (cfg : BotConfig) (inp : PollInput) (st : BotState)
    (hkw : enabledKeywords inp ≠ [])
    (hf : inp.fetchResult = none) :
    (poll_rss cfg inp st).1.failCount = st.failCount + 1 ∧
    ((poll_rss cfg inp st).2.healthAlertAttempted = true ↔
      st.failCount + 1 = cfg.threshold) ∧
    (poll_rss cfg inp st).1.seen = st.seen ∧
    (poll_rss cfg inp st).1.log = st.log ∧
    (poll_rss cfg inp st).1.initialized = st.initialized ∧
    (poll_rss cfg inp st).2.individualSends = [] ∧
    (poll_rss cfg inp st).2.summaryAttempted = false ∧
    (poll_rss cfg inp st).2.pruned = false ∧
    (∀ σ : Nat → Bool, poll_rss cfg { inp with sendOk := σ } st = poll_rss cfg inp st) := by
  obtain ⟨kws, fr, so, n⟩ := inp
  have hf' : fr = none := hf
  subst hf'
  have hke : (enabledKeywords (⟨kws, none, so, n⟩ : PollInput)).isEmpty = false := by
    simpa [List.isEmpty_iff] using hkw
  have hind : ∀ σ : Nat → Bool,
      poll_rss cfg { (⟨kws, none, so, n⟩ : PollInput) with sendOk := σ } st =
        poll_rss cfg (⟨kws, none, so, n⟩ : PollInput) st := by
    intro σ
    have hke2 : (enabledKeywords (⟨kws, none, σ, n⟩ : PollInput)).isEmpty = false := hke
    simp [poll_rss, hke, hke2]
  refine ⟨?_, ?_, ?_, ?_, ?_, ?_, ?_, ?_, hind⟩ <;>
    simp [poll_rss, hke, noEffects]

/-- Witness for C1: two failures into an outage with threshold 3, a third
failing cycle reaches a counter of 3 and attempts the alert. -/
theorem fetch_failure_cycle_spec_witness :
    (poll_rss sampleCfg failInput failState).1.failCount = 3 ∧
    (poll_rss sampleCfg failInput failState).2.healthAlertAttempted = true ∧
    (poll_rss sampleCfg failInput failState).1.seen = failState.seen := by
  have h := fetch_failure_cycle_spec sampleCfg failInput failState (by decide) rfl
  exact ⟨h.1, h.2.1.mpr rfl, h.2.2.1⟩

/-- C2: the health alert is edge-triggered.  A cycle attempts the alert iff
its fetch fails and the failure raises the counter to exactly the threshold;
any cycle whose fetch succeeds resets the counter to zero; and with
threshold 3, the failure pattern F F F F S F F F alerts exactly on the third
and on the last cycle. -/
theorem health_alert_edge_triggered :
    (∀ (cfg : BotConfig) (inp : PollInput) (st : BotState),
      enabledKeywords inp ≠ [] →
      ((poll_rss cfg inp st).2.healthAlertAttempted = true ↔
        (inp.fetchResult = none ∧ st.failCount + 1 = cfg.threshold))) ∧
    (∀ (cfg : BotConfig) (inp : PollInput) (st : BotState) (fetched : List Post),
      enabledKeywords inp ≠ [] → inp.fetchResult = some fetched →
      (poll_rss cfg inp st).1.failCount = 0) ∧
    (runCycles sampleCfg sampleState
      [failInput, failInput, failInput, failInput, okInput,
       failInput, failInput, failInput]).2.map
        (fun e => e.healthAlertAttempted) =
      [false, false, true, false, false, false, false, true] := by
  refine ⟨?_, ?_, by decide⟩
  · intro cfg inp st hkw
    have hke : (enabledKeywords inp).isEmpty = false := by
      simpa [List.isEmpty_iff] using hkw
    match hf : inp.fetchResult with
    | none => simp [poll_rss, hf, hke, noEffects]
    | some fetched =>
      simp only [poll_rss, hf, hke, Bool.false_eq_true, if_false]
      split
      · simp [noEffects, hf]
      · split
        · split <;> simp [noEffects, hf]
        · simp [noEffects, hf]
  · intro cfg inp st fetched hkw hf
    have hke : (enabledKeywords inp).isEmpty = false := by
      simpa [List.isEmpty_iff] using hkw
    simp only [poll_rss, hf, hke, Bool.false_eq_true, if_false]
    split
    · rfl
    · split
      · split
        · simp
        · simp
      · simp

/-- Witness for C2: the universally quantified parts applied at the concrete
outage scenario. -/
theorem health_alert_edge_triggered_witness :
    (poll_rss sampleCfg failInput failState).2.healthAlertAttempted = true ∧
    (poll_rss sampleCfg okInput failState).1.failCount = 0 := by
  refine ⟨(health_alert_edge_triggered.1 sampleCfg failInput failState (by decide)).mpr
    ⟨rfl, rfl⟩, health_alert_edge_triggered.2.1 sampleCfg okInput failState [] (by decide) rfl⟩

theorem is_seen_iff (st : BotState) (pid : Nat) :
    is_seen st pid = true ↔ pid ∈ st.seen.map (fun r => r.post_id) := by
  simp only [is_seen, List.any_eq_true, List.mem_map, beq_iff_eq]

theorem is_seen_mark_seen (st : BotState) (q pid now : Nat) :
    is_seen (mark_seen st q now) pid = true ↔ (is_seen st pid = true ∨ q = pid) := by
  rw [mark_seen]
  split
  · rename_i h
    constructor
    · exact Or.inl
    · rintro (h1 | rfl)
      · exact h1
      · exact h
  · simp [is_seen, List.any_append]

theorem is_seen_mark_many_seen (pids : List Nat) (now : Nat) :
    ∀ (st : BotState) (pid : Nat),
    is_seen (mark_many_seen st pids now) pid = true ↔
      (is_seen st pid = true ∨ pid ∈ pids) := by
  induction pids with
  | nil => intro st pid; simp [mark_many_seen]
  | cons q rest ih =>
    intro st pid
    show is_seen (mark_many_seen (mark_seen st q now) rest now) pid = true ↔ _
    rw [ih, is_seen_mark_seen]
    simp [List.mem_cons]
    tauto

theorem mark_seen_nodup (st : BotState) (pid now : Nat)
    (h : (st.seen.map (fun r => r.post_id)).Nodup) :
    ((mark_seen st pid now).seen.map (fun r => r.post_id)).Nodup := by
  by_cases hs : is_seen st pid = true
  · rw [mark_seen, if_pos hs]; exact h
  · rw [mark_seen, if_neg hs]
    have hmem : pid ∉ st.seen.map (fun r => r.post_id) :=
      fun hm => hs ((is_seen_iff st pid).mpr hm)
    simp only [List.map_append, List.map_cons, List.map_nil]
    refine List.nodup_append.mpr ⟨h, List.nodup_singleton _, ?_⟩
    intro a ha hb
    rw [List.mem_singleton] at hb
    exact hmem (hb ▸ ha)

theorem mark_many_seen_nodup (pids : List Nat) (now : Nat) : ∀ st : BotState,
    (st.seen.map (fun r => r.post_id)).Nodup →
    ((mark_many_seen st pids now).seen.map (fun r => r.post_id)).Nodup := by
  induction pids with
  | nil => intro st h; exact h
  | cons q rest ih =>
    intro st h
    exact ih (mark_seen st q now) (mark_seen_nodup st q now h)

theorem mem_insertAsc (x a : Nat × Post) (l : List (Nat × Post)) :
    a ∈ insertAsc x l ↔ a = x ∨ a ∈ l := by
  induction l with
  | nil => simp [insertAsc]
  | cons b rest ih =>
    rw [insertAsc]
    split
    · simp
    · simp [ih]
      tauto

theorem mem_sortEntriesAsc (a : Nat × Post) (l : List (Nat × Post)) :
    a ∈ sortEntriesAsc l ↔ a ∈ l := by
  induction l with
  | nil => simp [sortEntriesAsc]
  | cons b rest ih =>
    show a ∈ insertAsc b (sortEntriesAsc rest) ↔ _
    rw [mem_insertAsc]
    simp [ih]

theorem processEntries_all_seen (re : RegexEngine) (kws : List Keyword) (now : Nat)
    (l : List (Nat × Post)) : ∀ st : BotState,
    (∀ kp ∈ l, is_seen st kp.1 = true) →
    processEntries re kws now st l = (st, []) := by
  induction l with
  | nil => intro st _; rfl
  | cons kp rest ih =>
    intro st h
    rw [processEntries, if_pos (h kp (List.mem_cons_self kp rest))]
    exact ih st (fun x hx => h x (List.mem_cons_of_mem kp hx))

/-- A cycle on a state that is initialized, has a zero failure counter and
has already seen every entry of the fetched feed is a no-op with no effects. -/
theorem poll_rss_all_seen (cfg : BotConfig) (inp : PollInput) (st : BotState)
    (fetched : List Post)
    (hkw : (enabledKeywords inp).isEmpty = false)
    (hf : inp.fetchResult = some fetched)
    (hinit : st.initialized = true)
    (hfc : st.failCount = 0)
    (hall : ∀ kp ∈ sortEntriesAsc (buildEntries fetched), is_seen st kp.1 = true) :
    poll_rss cfg inp st = (st, noEffects) := by
  obtain ⟨sn, lg, init, fc⟩ := st
  have hinit2 : init = true := hinit
  have hfc2 : fc = 0 := hfc
  subst hinit2
  subst hfc2
  have hpe := processEntries_all_seen cfg.regexEngine (enabledKeywords inp) inp.now
    (sortEntriesAsc (buildEntries fetched)) ⟨sn, lg, true, 0⟩ hall
  by_cases hne : (buildEntries fetched).isEmpty = true
  · simp [poll_rss, hf, hkw, hne]
  · simp [poll_rss, hf, hkw, hne, hpe]

/-- C4: a cycle starting uninitialized that fetches a non-empty entry set
marks every fetched post id seen (each ledger id staying unique), flips the
initialized flag, writes no audit row and produces no notification effects;
and a second cycle against the unchanged feed leaves the state unchanged and
again produces no effects, the flag staying set. -/
theorem seeding_spec (cfg : BotConfig) (inp : PollInput) (st : BotState)
    (fetched : List Post)
    (hkw : enabledKeywords inp ≠ [])
    (hf : inp.fetchResult = some fetched)
    (hne : buildEntries fetched ≠ [])
    (hinit : st.initialized = false) :
    (poll_rss cfg inp st).1.initialized = true ∧
    (∀ pid ∈ (buildEntries fetched).map (fun kp => kp.1),
      is_seen (poll_rss cfg inp st).1 pid = true) ∧
    ((st.seen.map (fun r => r.post_id)).Nodup →
      ((poll_rss cfg inp st).1.seen.map (fun r => r.post_id)).Nodup) ∧
    (poll_rss cfg inp st).1.log = st.log ∧
    (poll_rss cfg inp st).2 = noEffects ∧
    poll_rss cfg inp (poll_rss cfg inp st).1 = ((poll_rss cfg inp st).1, noEffects) := by
  have hke : (enabledKeywords inp).isEmpty = false := by
    simpa [List.isEmpty_iff] using hkw
  have hnee : (buildEntries fetched).isEmpty = false := by
    simpa [List.isEmpty_iff] using hne
  have hfirst : poll_rss cfg inp st =
      ({ mark_many_seen { st with failCount := 0 }
          ((buildEntries fetched).map (fun kp => kp.1)) inp.now with
         initialized := true }, noEffects) := by
    simp [poll_rss, hf, hke, hnee, hinit]
  have hseen1 : ∀ pid ∈ (buildEntries fetched).map (fun kp => kp.1),
      is_seen (poll_rss cfg inp st).1 pid = true := by
    intro pid hpid
    rw [hfirst]
    have heq : is_seen { mark_many_seen { st with failCount := 0 }
        ((buildEntries fetched).map (fun kp => kp.1)) inp.now with
        initialized := true } pid =
        is_seen (mark_many_seen { st with failCount := 0 }
        ((buildEntries fetched).map (fun kp => kp.1)) inp.now) pid := rfl
    rw [heq, is_seen_mark_many_seen]
    exact Or.inr hpid
  refine ⟨by rw [hfirst], hseen1, ?_, by rw [hfirst]; simp, by rw [hfirst], ?_⟩
  · intro hnd
    rw [hfirst]
    exact mark_many_seen_nodup _ inp.now { st with failCount := 0 } hnd
  · refine poll_rss_all_seen cfg inp _ fetched hke hf ?_ ?_ ?_
    · rw [hfirst]
    · rw [hfirst]
      simp
    · intro kp hkp
      exact hseen1 kp.1
        (List.mem_map_of_mem _ ((mem_sortEntriesAsc kp _).mp hkp))

/-- Witness for C4: seeding the five-post feed from an uninitialized state. -/
theorem seeding_spec_witness :
    (poll_rss sampleCfg sampleInput ⟨[], [], false, 0⟩).1.initialized = true ∧
    (poll_rss sampleCfg sampleInput ⟨[], [], false, 0⟩).2 = noEffects ∧
    is_seen (poll_rss sampleCfg sampleInput ⟨[], [], false, 0⟩).1 3 = true := by
  have h := seeding_spec sampleCfg sampleInput ⟨[], [], false, 0⟩
    [samplePost 1, samplePost 2, samplePost 3, samplePost 4, samplePost 5]
    (by decide) rfl (by decide) rfl
  exact ⟨h.1, h.2.2.2.2.1, h.2.1 3 (by decide)⟩

theorem insertEntry_fst (l : List (Nat × Post)) (e : Post)
    (h : ∀ kp ∈ l, kp.1 = kp.2.post_id) :
    ∀ kp ∈ insertEntry l e, kp.1 = kp.2.post_id := by
  intro kp hkp
  rw [insertEntry] at hkp
  split at hkp
  · obtain ⟨p, hp, hpe⟩ := List.mem_map.mp hkp
    by_cases hc : (p.1 == e.post_id) = true
    · rw [if_pos hc] at hpe
      subst hpe
      simpa using hc
    · rw [if_neg hc] at hpe
      subst hpe
      exact h p hp
  · rcases List.mem_append.mp hkp with hm | hm
    · exact h kp hm
    · rw [List.mem_singleton] at hm
      subst hm
      rfl

theorem buildEntries_fst_aux (l : List Post) : ∀ acc : List (Nat × Post),
    (∀ kp ∈ acc, kp.1 = kp.2.post_id) →
    ∀ kp ∈ l.foldl insertEntry acc, kp.1 = kp.2.post_id := by
  induction l with
  | nil => intro acc h; exact h
  | cons e rest ih => intro acc h; exact ih _ (insertEntry_fst acc e h)

theorem buildEntries_fst (l : List Post) :
    ∀ kp ∈ buildEntries l, kp.1 = kp.2.post_id :=
  buildEntries_fst_aux l [] (by simp)

theorem is_seen_mark_seen_mono (st : BotState) (q pid now : Nat)
    (h : is_seen st pid = true) : is_seen (mark_seen st q now) pid = true :=
  (is_seen_mark_seen st q pid now).mpr (Or.inl h)

/-- Every queued notification comes from a fetched entry that was unseen when
the cycle started. -/
theorem processEntries_queue_mem (re : RegexEngine) (kws : List Keyword) (now : Nat)
    (l : List (Nat × Post)) : ∀ st : BotState,
    ∀ e ∈ (processEntries re kws now st l).2,
    ∃ kp ∈ l, e.1 = kp.2 ∧ is_seen st kp.1 = false := by
  induction l with
  | nil => intro st e he; simp [processEntries] at he
  | cons kp rest ih =>
    intro st e he
    rw [processEntries] at he
    split at he
    · obtain ⟨kp2, hm, h1, h2⟩ := ih st e he
      exact ⟨kp2, List.mem_cons_of_mem kp hm, h1, h2⟩
    · rename_i hns
      have hnsf : is_seen st kp.1 = false := by
        cases h : is_seen st kp.1
        · rfl
        · exact absurd h hns
      simp only [] at he
      split at he
      · obtain ⟨kp2, hm, h1, h2⟩ := ih _ e he
        refine ⟨kp2, List.mem_cons_of_mem kp hm, h1, ?_⟩
        cases h3 : is_seen st kp2.1
        · rfl
        · exact absurd (is_seen_mark_seen_mono st kp.1 kp2.1 now h3) (by simp [h2])
      · rcases List.mem_cons.mp he with rfl | he2
        · exact ⟨kp, List.mem_cons_self kp rest, rfl, hnsf⟩
        · obtain ⟨kp2, hm, h1, h2⟩ := ih _ e he2
          refine ⟨kp2, List.mem_cons_of_mem kp hm, h1, ?_⟩
          cases h3 : is_seen st kp2.1
          · rfl
          · exact absurd (is_seen_mark_seen_mono st kp.1 kp2.1 now h3) (by simp [h2])

theorem overflowRows_status (now : Nat) (overflow : List (Post × List String)) :
    ∀ r ∈ overflowRows now overflow, r.status = "sent" := by
  intro r hr
  simp only [overflowRows, List.mem_flatMap, List.mem_map] at hr
  obtain ⟨e, _, kw, _, hr⟩ := hr
  subst hr
  rfl

theorem auditRows_post_id (now : Nat) (sends : List (Post × List String × Bool)) :
    ∀ r ∈ auditRows now sends, ∃ t ∈ sends, r.post_id = t.1.post_id := by
  intro r hr
  simp only [auditRows, List.mem_flatMap, List.mem_map] at hr
  obtain ⟨t, ht, kw, _, hr⟩ := hr
  exact ⟨t, ht, by rw [← hr]; rfl⟩

theorem overflowRows_post_id (now : Nat) (overflow : List (Post × List String)) :
    ∀ r ∈ overflowRows now overflow, ∃ e ∈ overflow, r.post_id = e.1.post_id := by
  intro r hr
  simp only [overflowRows, List.mem_flatMap, List.mem_map] at hr
  obtain ⟨e, he, kw, _, hr⟩ := hr
  exact ⟨e, he, by rw [← hr]; rfl⟩

theorem insertAsc_sorted (x : Nat × Post) (l : List (Nat × Post))
    (h : List.Sorted (fun a b : Nat × Post => a.1 ≤ b.1) l) :
    List.Sorted (fun a b : Nat × Post => a.1 ≤ b.1) (insertAsc x l) := by
  induction l with
  | nil => simp [insertAsc]
  | cons a rest ih =>
    rw [insertAsc]
    rw [List.sorted_cons] at h
    split
    · rename_i hxa
      rw [List.sorted_cons]
      refine ⟨?_, List.sorted_cons.mpr h⟩
      intro b hb
      rcases List.mem_cons.mp hb with rfl | hb2
      · exact hxa
      · exact le_trans hxa (h.1 b hb2)
    · rename_i hxa
      rw [List.sorted_cons]
      refine ⟨?_, ih h.2⟩
      intro b hb
      rcases (mem_insertAsc x b rest).mp hb with rfl | hb2
      · exact le_of_not_le hxa
      · exact h.1 b hb2

theorem sortEntriesAsc_sorted (l : List (Nat × Post)) :
    List.Sorted (fun a b : Nat × Post => a.1 ≤ b.1) (sortEntriesAsc l) := by
  induction l with
  | nil => simp [sortEntriesAsc]
  | cons a rest ih => exact insertAsc_sorted a (sortEntriesAsc rest) ih

/-- The queue's posts form a sublist of the processed entries' posts. -/
theorem processEntries_queue_sublist (re : RegexEngine) (kws : List Keyword)
    (now : Nat) (l : List (Nat × Post)) : ∀ st : BotState,
    ((processEntries re kws now st l).2.map (fun e => e.1)).Sublist
      (l.map (fun kp => kp.2)) := by
  induction l with
  | nil => intro st; simp [processEntries]
  | cons kp rest ih =>
    intro st
    simp only [processEntries, List.map_cons]
    split
    · exact (ih st).cons kp.2
    · split
      · exact (ih _).cons kp.2
      · simpa using (ih _).cons₂ kp.2

/-- The queue's post ids come out in ascending order (the active loop walks
`sorted(entries.items())` and appends in iteration order). -/
theorem activeQueue_ids_sorted (cfg : BotConfig) (inp : PollInput) (st : BotState) :
    ((activeQueue cfg inp st).map (fun e => e.1.post_id)).Sorted (· ≤ ·) := by
  match hf : inp.fetchResult with
  | none => simp [activeQueue, hf]
  | some fetched =>
    simp only [activeQueue, hf]
    have hsorted : List.Sorted (fun a b : Nat × Post => a.1 ≤ b.1)
        (sortEntriesAsc (buildEntries fetched)) := sortEntriesAsc_sorted _
    have hkeys : ∀ kp ∈ sortEntriesAsc (buildEntries fetched), kp.1 = kp.2.post_id :=
      fun kp hkp => buildEntries_fst fetched kp ((mem_sortEntriesAsc kp _).mp hkp)
    have hids : ((sortEntriesAsc (buildEntries fetched)).map
        (fun kp => kp.2.post_id)).Sorted (· ≤ ·) := by
      have h1 : ((sortEntriesAsc (buildEntries fetched)).map
          (fun kp : Nat × Post => kp.1)).Sorted (· ≤ ·) :=
        List.Pairwise.map _ (fun a b hab => hab) hsorted
      have h2 : (sortEntriesAsc (buildEntries fetched)).map
          (fun kp => kp.2.post_id) =
          (sortEntriesAsc (buildEntries fetched)).map (fun kp : Nat × Post => kp.1) :=
        List.map_congr_left (fun kp hkp => (hkeys kp hkp).symm)
      rw [h2]
      exact h1
    have hsub := List.Sublist.map (fun p : Post => p.post_id)
      (processEntries_queue_sublist cfg.regexEngine (enabledKeywords inp) inp.now
        (sortEntriesAsc (buildEntries fetched)) { st with failCount := 0 })
    rw [List.map_map, List.map_map] at hsub
    exact List.Pairwise.sublist hsub hids

/-- C3: in an active cycle with a non-empty queue of length `k` and cap `N`,
exactly `min N k` entries — the queue's head, in ascending post-id order —
go through individual delivery, the remaining `k - N` are collapsed into one
summary whose audit rows all carry status `sent` without individual retry,
the summary is attempted iff the queue overflows the cap, and the cycle
still completes its pruning step (summary failure is swallowed). -/
theorem flood_control_spec (cfg : BotConfig) (inp : PollInput) (st : BotState)
    (fetched : List Post)
    (hkw : enabledKeywords inp ≠ [])
    (hf : inp.fetchResult = some fetched)
    (hinit : st.initialized = true)
    (hq : activeQueue cfg inp st ≠ []) :
    ((poll_rss cfg inp st).2.individualSends.map (fun t => (t.1, t.2.1)) =
      (activeQueue cfg inp st).take cfg.cap) ∧
    ((poll_rss cfg inp st).2.individualSends.length =
      min cfg.cap (activeQueue cfg inp st).length) ∧
    ((poll_rss cfg inp st).2.summaryPosts = (activeQueue cfg inp st).drop cfg.cap) ∧
    ((poll_rss cfg inp st).2.summaryAttempted = true ↔
      cfg.cap < (activeQueue cfg inp st).length) ∧
    ((poll_rss cfg inp st).1.log =
      (st.log ++ auditRows inp.now (poll_rss cfg inp st).2.individualSends
        ++ overflowRows inp.now ((activeQueue cfg inp st).drop cfg.cap)).filter
        (fun r => decide (inp.now - 30 ≤ r.sent_at))) ∧
    (∀ r ∈ overflowRows inp.now ((activeQueue cfg inp st).drop cfg.cap),
      r.status = "sent") ∧
    ((activeQueue cfg inp st).map (fun e => e.1.post_id)).Sorted (· ≤ ·) ∧
    (poll_rss cfg inp st).2.pruned = true := by
  obtain ⟨sn, lg, init, fc⟩ := st
  have hinit2 : init = true := hinit
  subst hinit2
  have hke : (enabledKeywords inp).isEmpty = false := by
    simpa [List.isEmpty_iff] using hkw
  have hqdef : activeQueue cfg inp ⟨sn, lg, true, fc⟩ =
      (processEntries cfg.regexEngine (enabledKeywords inp) inp.now
        ⟨sn, lg, true, 0⟩ (sortEntriesAsc (buildEntries fetched))).2 := by
    simp [activeQueue, hf]
  have hq2 : ((processEntries cfg.regexEngine (enabledKeywords inp) inp.now
      ⟨sn, lg, true, 0⟩ (sortEntriesAsc (buildEntries fetched))).2).isEmpty = false := by
    rw [← hqdef]
    simpa [List.isEmpty_iff] using hq
  have hne : (buildEntries fetched).isEmpty = false := by
    cases h : (buildEntries fetched).isEmpty
    · rfl
    · exfalso
      have hbe : buildEntries fetched = [] := by simpa [List.isEmpty_iff] using h
      rw [hbe] at hq2
      simp [sortEntriesAsc, processEntries] at hq2
  have hpoll : poll_rss cfg inp ⟨sn, lg, true, fc⟩ =
      floodControl cfg inp.sendOk inp.now
        (processEntries cfg.regexEngine (enabledKeywords inp) inp.now
          ⟨sn, lg, true, 0⟩ (sortEntriesAsc (buildEntries fetched))).1
        (processEntries cfg.regexEngine (enabledKeywords inp) inp.now
          ⟨sn, lg, true, 0⟩ (sortEntriesAsc (buildEntries fetched))).2 := by
    simp [poll_rss, hf, hke, hne, hq2]
  refine ⟨?_, ?_, ?_, ?_, ?_, overflowRows_status inp.now _,
    activeQueue_ids_sorted cfg inp _, ?_⟩
  · rw [hpoll, hqdef]
    simp [deliverLoop_sends_proj]
  · rw [hpoll, hqdef]
    have := congrArg List.length (deliverLoop_sends_proj inp.sendOk inp.now
      (((processEntries cfg.regexEngine (enabledKeywords inp) inp.now
        ⟨sn, lg, true, 0⟩ (sortEntriesAsc (buildEntries fetched))).2).take cfg.cap)
      (processEntries cfg.regexEngine (enabledKeywords inp) inp.now
        ⟨sn, lg, true, 0⟩ (sortEntriesAsc (buildEntries fetched))).1 0)
    simp only [List.length_map] at this
    simp [this, List.length_take]
  · rw [hpoll, hqdef]
    simp
  · rw [hpoll, hqdef]
    simp [List.isEmpty_iff, List.drop_eq_nil_iff]
  · rw [hpoll, hqdef]
    have := floodControl_log cfg inp.sendOk inp.now
      (processEntries cfg.regexEngine (enabledKeywords inp) inp.now
        ⟨sn, lg, true, 0⟩ (sortEntriesAsc (buildEntries fetched))).1
      (processEntries cfg.regexEngine (enabledKeywords inp) inp.now
        ⟨sn, lg, true, 0⟩ (sortEntriesAsc (buildEntries fetched))).2
    rw [this]
    simp [processEntries_log]
  · rw [hpoll]
    simp

/-- Witness for C3: cap 2 and five matching posts yield exactly two
individual deliveries and one summary covering the remaining three. -/
theorem flood_control_spec_witness :
    (poll_rss sampleCfg sampleInput sampleState).2.individualSends.length = 2 ∧
    (poll_rss sampleCfg sampleInput sampleState).2.summaryPosts.length = 3 ∧
    (poll_rss sampleCfg sampleInput sampleState).2.summaryAttempted = true := by
  have h := flood_control_spec sampleCfg sampleInput sampleState
    [samplePost 1, samplePost 2, samplePost 3, samplePost 4, samplePost 5]
    (by decide) rfl rfl (by decide)
  refine ⟨?_, ?_, h.2.2.2.1.mpr (by decide)⟩
  · rw [h.2.1]
    decide
  · rw [h.2.2.1]
    decide

/-- C5: an active cycle re-fed an entry whose post id is already in the seen
ledger produces no individual or summarized notification for that post and
appends no audit row for it, and re-marking the id seen is a no-op on the
ledger. -/
theorem dedup_idempotence (cfg : BotConfig) (inp : PollInput) (st : BotState)
    (fetched : List Post) (pid : Nat)
    (hkw : enabledKeywords inp ≠ [])
    (hf : inp.fetchResult = some fetched)
    (hinit : st.initialized = true)
    (hseen : is_seen st pid = true) :
    (∀ t ∈ (poll_rss cfg inp st).2.individualSends, t.1.post_id ≠ pid) ∧
    (∀ e ∈ (poll_rss cfg inp st).2.summaryPosts, e.1.post_id ≠ pid) ∧
    (∀ r ∈ (poll_rss cfg inp st).1.log, r.post_id = pid → r ∈ st.log) ∧
    (∀ now2 : Nat, mark_seen st pid now2 = st) := by
  have hnoop : ∀ now2 : Nat, mark_seen st pid now2 = st := by
    intro now2
    rw [mark_seen, if_pos hseen]
  obtain ⟨sn, lg, init, fc⟩ := st
  have hinit2 : init = true := hinit
  subst hinit2
  have hke : (enabledKeywords inp).isEmpty = false := by
    simpa [List.isEmpty_iff] using hkw
  have hqpid : ∀ e ∈ (processEntries cfg.regexEngine (enabledKeywords inp) inp.now
      ⟨sn, lg, true, 0⟩ (sortEntriesAsc (buildEntries fetched))).2,
      e.1.post_id ≠ pid := by
    intro e he hEq
    obtain ⟨kp, hkp, he1, hns⟩ := processEntries_queue_mem cfg.regexEngine
      (enabledKeywords inp) inp.now (sortEntriesAsc (buildEntries fetched))
      ⟨sn, lg, true, 0⟩ e he
    have hkey : kp.1 = kp.2.post_id :=
      buildEntries_fst fetched kp ((mem_sortEntriesAsc kp _).mp hkp)
    rw [he1] at hEq
    rw [← hkey] at hEq
    rw [hEq] at hns
    have hs0 : is_seen ⟨sn, lg, true, 0⟩ pid = true := hseen
    simp [hs0] at hns
  by_cases hne : (buildEntries fetched).isEmpty = true
  · have hpoll : poll_rss cfg inp ⟨sn, lg, true, fc⟩ =
        (⟨sn, lg, true, 0⟩, noEffects) := by
      simp [poll_rss, hf, hke, hne]
    rw [hpoll]
    exact ⟨by simp [noEffects], by simp [noEffects], fun r hr _ => hr, hnoop⟩
  · by_cases hqe : ((processEntries cfg.regexEngine (enabledKeywords inp) inp.now
        ⟨sn, lg, true, 0⟩ (sortEntriesAsc (buildEntries fetched))).2).isEmpty = true
    · have hpoll : poll_rss cfg inp ⟨sn, lg, true, fc⟩ =
          ((processEntries cfg.regexEngine (enabledKeywords inp) inp.now
            ⟨sn, lg, true, 0⟩ (sortEntriesAsc (buildEntries fetched))).1,
           noEffects) := by
        simp [poll_rss, hf, hke, hne, hqe]
      rw [hpoll]
      refine ⟨by simp [noEffects], by simp [noEffects], ?_, hnoop⟩
      intro r hr _
      rw [processEntries_log] at hr
      exact hr
    · have hpoll : poll_rss cfg inp ⟨sn, lg, true, fc⟩ =
          floodControl cfg inp.sendOk inp.now
            (processEntries cfg.regexEngine (enabledKeywords inp) inp.now
              ⟨sn, lg, true, 0⟩ (sortEntriesAsc (buildEntries fetched))).1
            (processEntries cfg.regexEngine (enabledKeywords inp) inp.now
              ⟨sn, lg, true, 0⟩ (sortEntriesAsc (buildEntries fetched))).2 := by
        simp [poll_rss, hf, hke, hne, hqe]
      rw [hpoll]
      have hsends : ∀ t ∈ (floodControl cfg inp.sendOk inp.now
          (processEntries cfg.regexEngine (enabledKeywords inp) inp.now
            ⟨sn, lg, true, 0⟩ (sortEntriesAsc (buildEntries fetched))).1
          (processEntries cfg.regexEngine (enabledKeywords inp) inp.now
            ⟨sn, lg, true, 0⟩ (sortEntriesAsc (buildEntries fetched))).2).2.individualSends,
          t.1.post_id ≠ pid := by
        intro t ht
        have hproj := deliverLoop_sends_proj inp.sendOk inp.now
          (((processEntries cfg.regexEngine (enabledKeywords inp) inp.now
            ⟨sn, lg, true, 0⟩ (sortEntriesAsc (buildEntries fetched))).2).take cfg.cap)
          (processEntries cfg.regexEngine (enabledKeywords inp) inp.now
            ⟨sn, lg, true, 0⟩ (sortEntriesAsc (buildEntries fetched))).1 0
        have hmem : (t.1, t.2.1) ∈ ((processEntries cfg.regexEngine
            (enabledKeywords inp) inp.now ⟨sn, lg, true, 0⟩
            (sortEntriesAsc (buildEntries fetched))).2).take cfg.cap := by
          rw [← hproj]
          exact List.mem_map_of_mem _ (by simpa using ht)
        exact hqpid (t.1, t.2.1) (List.take_subset _ _ hmem)
      refine ⟨hsends, ?_, ?_, hnoop⟩
      · intro e he
        rw [floodControl_summaryPosts] at he
        exact hqpid e (List.drop_subset _ _ he)
      · intro r hr hrp
        rw [floodControl_log] at hr
        have hr2 := (List.mem_filter.mp hr).1
        rcases List.mem_append.mp hr2 with hr3 | hov
        · rcases List.mem_append.mp hr3 with hlg | haud
          · rw [processEntries_log] at hlg
            exact hlg
          · exfalso
            obtain ⟨t, ht, hteq⟩ := auditRows_post_id inp.now _ r haud
            exact hsends t ht (hteq ▸ hrp)
        · exfalso
          obtain ⟨e, he, heq⟩ := overflowRows_post_id inp.now _ r hov
          exact hqpid e (List.drop_subset _ _ he) (heq ▸ hrp)

/-- Witness for C5: post 1 is already seen; the five-post active cycle sends
nothing for it and re-marking it is a no-op. -/
theorem dedup_idempotence_witness :
    (∀ t ∈ (poll_rss sampleCfg sampleInput ⟨[⟨1, 50⟩], [], true, 0⟩).2.individualSends,
      t.1.post_id ≠ 1) ∧
    mark_seen ⟨[⟨1, 50⟩], [], true, 0⟩ 1 100 = ⟨[⟨1, 50⟩], [], true, 0⟩ := by
  have h := dedup_idempotence sampleCfg sampleInput ⟨[⟨1, 50⟩], [], true, 0⟩
    [samplePost 1, samplePost 2, samplePost 3, samplePost 4, samplePost 5] 1
    (by decide) rfl rfl (by decide)
  exact ⟨h.1, h.2.2.2 100⟩

/-- C8: the two pruning passes (7-day seen retention, 30-day audit retention)
run in a cycle iff that cycle reaches flood control with a non-empty queue —
enabled rules exist, the fetch succeeded with a non-empty entry set, the
state was initialized, and at least one new post matched; whenever they run,
every surviving ledger row is within the 7-day window and every surviving
audit row within the 30-day window. -/
theorem housekeeping_coupling (cfg : BotConfig) (inp : PollInput) (st : BotState) :
    ((poll_rss cfg inp st).2.pruned = true ↔
      (enabledKeywords inp ≠ [] ∧
       ∃ fetched, inp.fetchResult = some fetched ∧ buildEntries fetched ≠ [] ∧
       st.initialized = true ∧ activeQueue cfg inp st ≠ [])) ∧
    ((poll_rss cfg inp st).2.pruned = true →
      (∀ r ∈ (poll_rss cfg inp st).1.seen, inp.now - 7 ≤ r.seen_at) ∧
      (∀ r ∈ (poll_rss cfg inp st).1.log, inp.now - 30 ≤ r.sent_at)) := by
  obtain ⟨sn, lg, init, fc⟩ := st
  by_cases hke : (enabledKeywords inp).isEmpty = true
  · have hpoll : poll_rss cfg inp ⟨sn, lg, init, fc⟩ = (⟨sn, lg, init, fc⟩, noEffects) := by
      simp [poll_rss, hke]
    rw [hpoll]
    constructor
    · simp only [noEffects, Bool.false_eq_true, false_iff]
      rintro ⟨h1, -⟩
      exact h1 (List.isEmpty_iff.mp hke)
    · intro h
      cases h
  · match hfr : inp.fetchResult with
    | none =>
      have hpoll : (poll_rss cfg inp ⟨sn, lg, init, fc⟩).2 =
          { noEffects with healthAlertAttempted := fc + 1 == cfg.threshold } := by
        simp [poll_rss, hfr, hke]
      rw [hpoll]
      constructor
      · simp only [noEffects, Bool.false_eq_true, false_iff]
        rintro ⟨-, fetched, hsome, -⟩
        cases hsome
      · intro h
        cases h
    | some fetched =>
      by_cases hne : (buildEntries fetched).isEmpty = true
      · have hq0 : activeQueue cfg inp ⟨sn, lg, init, fc⟩ = [] := by
          simp [activeQueue, hfr, List.isEmpty_iff.mp hne, sortEntriesAsc, processEntries]
        have hpoll : poll_rss cfg inp ⟨sn, lg, init, fc⟩ =
            (⟨sn, lg, init, 0⟩, noEffects) := by
          simp [poll_rss, hfr, hke, hne]
        rw [hpoll]
        constructor
        · simp only [noEffects, Bool.false_eq_true, false_iff]
          rintro ⟨-, fetched2, hsome, hne2, -⟩
          cases hsome
          exact hne2 (List.isEmpty_iff.mp hne)
        · intro h
          cases h
      · by_cases hinit : init = true
        · subst hinit
          have hqdef : activeQueue cfg inp ⟨sn, lg, true, fc⟩ =
              (processEntries cfg.regexEngine (enabledKeywords inp) inp.now
                ⟨sn, lg, true, 0⟩ (sortEntriesAsc (buildEntries fetched))).2 := by
            simp [activeQueue, hfr]
          by_cases hqe : ((processEntries cfg.regexEngine (enabledKeywords inp) inp.now
              ⟨sn, lg, true, 0⟩ (sortEntriesAsc (buildEntries fetched))).2).isEmpty = true
          · have hpoll : poll_rss cfg inp ⟨sn, lg, true, fc⟩ =
                ((processEntries cfg.regexEngine (enabledKeywords inp) inp.now
                  ⟨sn, lg, true, 0⟩ (sortEntriesAsc (buildEntries fetched))).1,
                 noEffects) := by
              simp [poll_rss, hfr, hke, hne, hqe]
            rw [hpoll]
            constructor
            · simp only [noEffects, Bool.false_eq_true, false_iff]
              rintro ⟨-, fetched2, hsome, -, -, hq⟩
              cases hsome
              rw [hqdef] at hq
              exact hq (List.isEmpty_iff.mp hqe)
            · intro h
              cases h
          · have hpoll : poll_rss cfg inp ⟨sn, lg, true, fc⟩ =
                floodControl cfg inp.sendOk inp.now
                  (processEntries cfg.regexEngine (enabledKeywords inp) inp.now
                    ⟨sn, lg, true, 0⟩ (sortEntriesAsc (buildEntries fetched))).1
                  (processEntries cfg.regexEngine (enabledKeywords inp) inp.now
                    ⟨sn, lg, true, 0⟩ (sortEntriesAsc (buildEntries fetched))).2 := by
              simp [poll_rss, hfr, hke, hne, hqe]
            rw [hpoll]
            constructor
            · simp only [floodControl_pruned, true_iff]
              refine ⟨by simpa [List.isEmpty_iff] using hke, fetched, rfl,
                by simpa [List.isEmpty_iff] using hne, by trivial, ?_⟩
              rw [hqdef]
              simpa [List.isEmpty_iff] using hqe
            · intro _
              constructor
              · intro r hr
                rw [floodControl_seen] at hr
                have := (List.mem_filter.mp hr).2
                simpa using this
              · intro r hr
                rw [floodControl_log] at hr
                have := (List.mem_filter.mp hr).2
                simpa using this
        · have hinitf : init = false := by
            cases init
            · rfl
            · exact absurd rfl hinit
          subst hinitf
          have hpoll : poll_rss cfg inp ⟨sn, lg, false, fc⟩ =
              ({ mark_many_seen ⟨sn, lg, false, 0⟩
                  ((buildEntries fetched).map (fun kp => kp.1)) inp.now with
                 initialized := true }, noEffects) := by
            simp [poll_rss, hfr, hke, hne]
          rw [hpoll]
          constructor
          · simp only [noEffects, Bool.false_eq_true, false_iff]
            rintro ⟨-, -, -, -, hinit2, -⟩
            cases hinit2
          · intro h
            cases h

/-- Witness for C8: the five-post active cycle prunes, and its surviving
rows obey both retention windows. -/
theorem housekeeping_coupling_witness :
    (poll_rss sampleCfg sampleInput sampleState).2.pruned = true ∧
    (∀ r ∈ (poll_rss sampleCfg sampleInput sampleState).1.seen,
      sampleInput.now - 7 ≤ r.seen_at) := by
  have h := housekeeping_coupling sampleCfg sampleInput sampleState
  have hp : (poll_rss sampleCfg sampleInput sampleState).2.pruned = true :=
    h.1.mpr ⟨by decide,
      [samplePost 1, samplePost 2, samplePost 3, samplePost 4, samplePost 5],
      rfl, by decide, rfl, by decide⟩
  exact ⟨hp, (h.2 hp).1⟩

theorem firstDedup_aux_mem {α : Type} [BEq α] [LawfulBEq α] (l : List α) :
    ∀ (acc : List α) (x : α),
    x ∈ l.foldl (fun acc a => if acc.contains a then acc else acc ++ [a]) acc ↔
      x ∈ acc ∨ x ∈ l := by
  induction l with
  | nil => intro acc x; simp
  | cons a rest ih =>
    intro acc x
    simp only [List.foldl_cons]
    by_cases hc : acc.contains a = true
    · rw [if_pos hc, ih]
      have ham : a ∈ acc := by simpa using hc
      constructor
      · rintro (h | h)
        · exact Or.inl h
        · exact Or.inr (List.mem_cons_of_mem a h)
      · rintro (h | h)
        · exact Or.inl h
        · rcases List.mem_cons.mp h with rfl | h2
          · exact Or.inl ham
          · exact Or.inr h2
    · rw [if_neg hc, ih]
      simp [List.mem_append, List.mem_cons]
      tauto

theorem firstDedup_mem {α : Type} [BEq α] [LawfulBEq α] (l : List α) (x : α) :
    x ∈ firstDedup l ↔ x ∈ l := by
  rw [firstDedup, firstDedup_aux_mem]
  simp

theorem firstDedup_aux_nodup {α : Type} [BEq α] [LawfulBEq α] (l : List α) :
    ∀ acc : List α, acc.Nodup →
    (l.foldl (fun acc a => if acc.contains a then acc else acc ++ [a]) acc).Nodup := by
  induction l with
  | nil => intro acc h; exact h
  | cons a rest ih =>
    intro acc h
    simp only [List.foldl_cons]
    by_cases hc : acc.contains a = true
    · rw [if_pos hc]
      exact ih acc h
    · rw [if_neg hc]
      refine ih _ (List.nodup_append.mpr ⟨h, List.nodup_singleton _, ?_⟩)
      intro x hx hx2
      rw [List.mem_singleton] at hx2
      subst hx2
      exact hc (by simpa using hx)

theorem firstDedup_nodup {α : Type} [BEq α] [LawfulBEq α] (l : List α) :
    (firstDedup l).Nodup :=
  firstDedup_aux_nodup l [] List.nodup_nil

theorem mem_insertByTime (h x : HistoryRow) (l : List HistoryRow) :
    x ∈ insertByTime h l ↔ x = h ∨ x ∈ l := by
  induction l with
  | nil => simp [insertByTime]
  | cons a rest ih =>
    rw [insertByTime]
    split
    · simp
    · simp [ih]
      tauto

theorem insertByTime_sorted (h : HistoryRow) (l : List HistoryRow)
    (hs : List.Sorted (fun a b : HistoryRow => b.sent_at ≤ a.sent_at) l) :
    List.Sorted (fun a b : HistoryRow => b.sent_at ≤ a.sent_at) (insertByTime h l) := by
  induction l with
  | nil => simp [insertByTime]
  | cons a rest ih =>
    rw [insertByTime]
    rw [List.sorted_cons] at hs
    split
    · rename_i hah
      rw [List.sorted_cons]
      refine ⟨?_, List.sorted_cons.mpr hs⟩
      intro b hb
      rcases List.mem_cons.mp hb with rfl | hb2
      · exact hah
      · exact le_trans (hs.1 b hb2) hah
    · rename_i hah
      rw [List.sorted_cons]
      refine ⟨?_, ih hs.2⟩
      intro b hb
      rcases (mem_insertByTime h b rest).mp hb with rfl | hb2
      · exact le_of_not_le hah
      · exact hs.1 b hb2

theorem sortByTimeDesc_sorted (l : List HistoryRow) :
    List.Sorted (fun a b : HistoryRow => b.sent_at ≤ a.sent_at) (sortByTimeDesc l) := by
  induction l with
  | nil => simp [sortByTimeDesc]
  | cons a rest ih => exact insertByTime_sorted a (sortByTimeDesc rest) ih

theorem insertByTime_perm (h : HistoryRow) (l : List HistoryRow) :
    (insertByTime h l).Perm (h :: l) := by
  induction l with
  | nil => simp [insertByTime]
  | cons a rest ih =>
    rw [insertByTime]
    split
    · exact List.Perm.refl _
    · exact ((ih.cons a).trans (List.Perm.swap h a rest))

theorem sortByTimeDesc_perm (l : List HistoryRow) :
    (sortByTimeDesc l).Perm l := by
  induction l with
  | nil => simp [sortByTimeDesc]
  | cons a rest ih =>
    exact (insertByTime_perm a (sortByTimeDesc rest)).trans (ih.cons a)

theorem minStatus_all_sent (l : List String) (h : ∀ s ∈ l, s = "sent") :
    l.foldl (fun acc t => if charListLt t.toList acc.toList then t else acc)
      "sent" = "sent" := by
  induction l with
  | nil => rfl
  | cons s rest ih =>
    have hs : s = "sent" := h s (List.mem_cons_self s rest)
    subst hs
    simp only [List.foldl_cons]
    rw [if_neg (by decide)]
    exact ih (fun t ht => h t (List.mem_cons_of_mem _ ht))

theorem minStatus_has_failed (l : List String) : ∀ acc : String,
    (acc = "sent" ∨ acc = "failed") →
    (∀ s ∈ l, s = "sent" ∨ s = "failed") →
    (acc = "failed" ∨ "failed" ∈ l) →
    l.foldl (fun acc t => if charListLt t.toList acc.toList then t else acc)
      acc = "failed" := by
  induction l with
  | nil =>
    intro acc hacc _ hmem
    rcases hmem with rfl | hm
    · rfl
    · cases hm
  | cons s rest ih =>
    intro acc hacc hall hmem
    have hs := hall s (List.mem_cons_self s rest)
    have hrest : ∀ t ∈ rest, t = "sent" ∨ t = "failed" :=
      fun t ht => hall t (List.mem_cons_of_mem s ht)
    simp only [List.foldl_cons]
    rcases hacc with rfl | rfl <;> rcases hs with hsv | hsv <;> subst hsv
    · rw [if_neg (by decide)]
      refine ih "sent" (Or.inl rfl) hrest ?_
      rcases hmem with h1 | h1
      · exact absurd h1 (by decide)
      · rcases List.mem_cons.mp h1 with h2 | h2
        · exact absurd h2 (by decide)
        · exact Or.inr h2
    · rw [if_pos (by decide)]
      exact ih "failed" (Or.inr rfl) hrest (Or.inl rfl)
    · rw [if_neg (by decide)]
      exact ih "failed" (Or.inr rfl) hrest (Or.inl rfl)
    · rw [if_neg (by decide)]
      exact ih "failed" (Or.inr rfl) hrest (Or.inl rfl)

/-- Computed `MIN(status)` over `sent`/`failed` statuses is `failed` exactly when some
status is `failed`. -/
theorem sqlMinStatus_spec (l : List String) (hne : l ≠ [])
    (hall : ∀ s ∈ l, s = "sent" ∨ s = "failed") :
    sqlMinStatus l = (if "failed" ∈ l then "failed" else "sent") := by
  match l with
  | [] => exact absurd rfl hne
  | s :: rest =>
    rw [sqlMinStatus]
    by_cases hf : "failed" ∈ s :: rest
    · rw [if_pos hf]
      refine minStatus_has_failed rest s (hall s (List.mem_cons_self s rest))
        (fun t ht => hall t (List.mem_cons_of_mem s ht)) ?_
      rcases List.mem_cons.mp hf with h | h
      · exact Or.inl h.symm
      · exact Or.inr h
    · rw [if_neg hf]
      have hsent : ∀ t ∈ s :: rest, t = "sent" := by
        intro t ht
        rcases hall t ht with h | h
        · exact h
        · exact absurd (h ▸ ht) hf
      have hss : s = "sent" := hsent s (List.mem_cons_self s rest)
      subst hss
      exact minStatus_all_sent rest
        (fun t ht => hsent t (List.mem_cons_of_mem _ ht))

theorem mem_get_history (limit : Nat) (rows : List NotifRow) (g : HistoryRow)
    (hg : g ∈ get_history limit rows) :
    ∃ pid ∈ rows.map (fun r => r.post_id),
      g = aggregateGroup pid (groupRows rows pid) := by
  rw [get_history] at hg
  have h1 := List.take_subset _ _ hg
  have h2 := (sortByTimeDesc_perm _).mem_iff.mp h1
  obtain ⟨pid, hpid, hgeq⟩ := List.mem_map.mp h2
  exact ⟨pid, (firstDedup_mem _ pid).mp hpid, hgeq.symm⟩

theorem groupRows_ne_nil (rows : List NotifRow) (pid : Nat)
    (h : pid ∈ rows.map (fun r => r.post_id)) : groupRows rows pid ≠ [] := by
  obtain ⟨r, hr, hrp⟩ := List.mem_map.mp h
  intro hnil
  have hm : r ∈ groupRows rows pid := List.mem_filter.mpr ⟨hr, by simp [hrp]⟩
  rw [hnil] at hm
  cases hm

theorem aggregate_status_iff (rows : List NotifRow) (pid : Nat)
    (hpid : pid ∈ rows.map (fun r => r.post_id))
    (hall : ∀ r ∈ rows, r.status = "sent" ∨ r.status = "failed") :
    ((aggregateGroup pid (groupRows rows pid)).status = "failed" ↔
      ∃ r ∈ rows, r.post_id = pid ∧ r.status = "failed") ∧
    ((aggregateGroup pid (groupRows rows pid)).status = "sent" ↔
      ¬ ∃ r ∈ rows, r.post_id = pid ∧ r.status = "failed") := by
  have hne := groupRows_ne_nil rows pid hpid
  have hne2 : (groupRows rows pid).map (fun r => r.status) ≠ [] := by
    simpa using hne
  have hall2 : ∀ s ∈ (groupRows rows pid).map (fun r => r.status),
      s = "sent" ∨ s = "failed" := by
    intro s hs
    obtain ⟨r, hr, hrs⟩ := List.mem_map.mp hs
    exact hrs ▸ hall r (List.mem_filter.mp hr).1
  have hmin := sqlMinStatus_spec _ hne2 hall2
  have hmem : ("failed" ∈ (groupRows rows pid).map (fun r => r.status)) ↔
      ∃ r ∈ rows, r.post_id = pid ∧ r.status = "failed" := by
    constructor
    · intro h
      obtain ⟨r, hr, hrs⟩ := List.mem_map.mp h
      have hf := List.mem_filter.mp hr
      exact ⟨r, hf.1, by simpa using hf.2, hrs⟩
    · rintro ⟨r, hr, hp, hs⟩
      exact List.mem_map.mpr ⟨r, List.mem_filter.mpr ⟨hr, by simp [hp]⟩, hs⟩
  have hstat : (aggregateGroup pid (groupRows rows pid)).status =
      sqlMinStatus ((groupRows rows pid).map (fun r => r.status)) := rfl
  rw [hstat, hmin]
  by_cases hm : "failed" ∈ (groupRows rows pid).map (fun r => r.status)
  · rw [if_pos hm]
    constructor
    · exact ⟨fun _ => hmem.mp hm, fun _ => rfl⟩
    · constructor
      · intro h
        exact absurd h (by decide)
      · intro h
        exact absurd (hmem.mp hm) h
  · rw [if_neg hm]
    constructor
    · constructor
      · intro h
        exact absurd h (by decide)
      · intro h
        exact absurd (hmem.mpr h) hm
    · exact ⟨fun _ h => hm (hmem.mpr h), fun _ => rfl⟩

/-- C9: the history query returns at most `limit` rows, one per distinct
post, ordered newest-first by latest attempt time; each row's keywords are
the comma-joined distinct keywords of its post and its status is `failed`
exactly when some recorded attempt for that post failed, `sent` otherwise. -/
theorem history_query_spec (limit : Nat) (rows : List NotifRow)
    (hall : ∀ r ∈ rows, r.status = "sent" ∨ r.status = "failed") :
    (get_history limit rows).length ≤ limit ∧
    ((get_history limit rows).map (fun g => g.post_id)).Nodup ∧
    List.Sorted (fun a b : HistoryRow => b.sent_at ≤ a.sent_at)
      (get_history limit rows) ∧
    ∀ g ∈ get_history limit rows,
      (g.status = "failed" ↔
        ∃ r ∈ rows, r.post_id = g.post_id ∧ r.status = "failed") ∧
      (g.status = "sent" ↔
        ¬ ∃ r ∈ rows, r.post_id = g.post_id ∧ r.status = "failed") ∧
      g.keywords = String.intercalate ","
        (firstDedup ((groupRows rows g.post_id).map (fun r => r.keyword))) := by
  refine ⟨?_, ?_, ?_, ?_⟩
  · rw [get_history, List.length_take]
    exact inf_le_left
  · have hids : ((firstDedup (rows.map (fun r => r.post_id))).map
        (fun pid => aggregateGroup pid (groupRows rows pid))).map
        (fun g => g.post_id) = firstDedup (rows.map (fun r => r.post_id)) := by
      rw [List.map_map]
      exact List.map_id' _
    have hnodup1 : (((firstDedup (rows.map (fun r => r.post_id))).map
        (fun pid => aggregateGroup pid (groupRows rows pid))).map
        (fun g => g.post_id)).Nodup := by
      rw [hids]
      exact firstDedup_nodup _
    have hperm := (sortByTimeDesc_perm ((firstDedup (rows.map
        (fun r => r.post_id))).map
        (fun pid => aggregateGroup pid (groupRows rows pid)))).map
      (fun g => g.post_id)
    have hnodup2 := hperm.nodup_iff.mpr hnodup1
    rw [get_history, List.map_take]
    exact List.Nodup.sublist (List.take_sublist _ _) hnodup2
  · rw [get_history]
    exact List.Pairwise.sublist (List.take_sublist _ _) (sortByTimeDesc_sorted _)
  · intro g hg
    obtain ⟨pid, hpid, hgeq⟩ := mem_get_history limit rows g hg
    subst hgeq
    have hst := aggregate_status_iff rows pid hpid hall
    exact ⟨hst.1, hst.2, rfl⟩

/-- Witness for C9 on a three-row audit table: two result rows, newest first,
post 1 aggregated as `failed` with both keywords comma-joined. -/
theorem history_query_spec_witness :
    (get_history 10 sampleRows).length ≤ 10 ∧
    (get_history 10 sampleRows).map (fun g => (g.post_id, g.status, g.keywords)) =
      [(2, "sent", "DMIT"), (1, "failed", "DMIT,VPS")] := by
  have h := history_query_spec 10 sampleRows (by decide)
  exact ⟨h.1, by decide⟩
